import Mathlib

/-
Verification of the prefect-database-cleanup utility.

The development shallowly embeds the three components of the package:

* `PrefectCleanup.run` (src/prefect_cleanup/cleanup_manager.py) - the
  retention executor.  A database is modelled as eight lists of rows, one
  per table; each row carries its `created` timestamp (an integer, in the
  same time unit as the retention window) plus an abstract payload.  The
  transactional behaviour of the `with engine.connect()` block (commit once
  at the end, rollback on an exception) is modelled explicitly by
  `PrefectCleanup.runWithFailure`, which also records the trace of
  delete/commit events issued to the engine.

* `DatabaseMonitor.health_check` (src/prefect_cleanup/monitoring.py) - the
  health reporter.  The database is abstracted as a query oracle
  `q : String → Except String Nat` giving, for each table name, either the
  COUNT result or the message of the exception the query raised.

* `BackupHandler` (src/prefect_cleanup/backup_handler.py) - the backup
  copier.  The filesystem is an association list from paths to byte lists;
  the Python string operations the handler uses (`str.replace`,
  `str.lower`, the `in` substring test) are re-implemented structurally on
  `String.data` so that they evaluate inside the kernel, and Python's
  `sorted(..., reverse=True)` is modelled by a structural insertion sort.
-/

/-! Retention executor: data model (cleanup_manager.py). -/

/-- A row of one of the Prefect tables.  Only the `created` timestamp column
is inspected by the cleanup tool; `payload` stands for every other column. -/
structure Row where
  created : Int
  payload : Nat
deriving DecidableEq, Repr

/-- The eight tables touched by `PrefectCleanup.run`, one constructor per
table name. -/
inductive TableName where
  | log
  | task_run_state
  | task_run
  | flow_run_state
  | flow_run
  | event_resources
  | events
  | artifact
deriving DecidableEq, Repr

/-- The whole database state seen by the cleanup tool: the contents of the
eight tables. -/
structure DbState where
  log : List Row
  task_run_state : List Row
  task_run : List Row
  flow_run_state : List Row
  flow_run : List Row
  event_resources : List Row
  events : List Row
  artifact : List Row
deriving DecidableEq, Repr

/-- The `tables` list of `PrefectCleanup.run`, in the source's order
(children before parents). -/
def tableOrder : List TableName :=
  [.log, .task_run_state, .task_run, .flow_run_state, .flow_run,
   .event_resources, .events, .artifact]

/-- Read one table out of the database state. -/
def getTable (db : DbState) : TableName → List Row
  | .log => db.log
  | .task_run_state => db.task_run_state
  | .task_run => db.task_run
  | .flow_run_state => db.flow_run_state
  | .flow_run => db.flow_run
  | .event_resources => db.event_resources
  | .events => db.events
  | .artifact => db.artifact

/-- Replace one table of the database state. -/
def setTable (db : DbState) (t : TableName) (rows : List Row) : DbState :=
  match t with
  | .log => { db with log := rows }
  | .task_run_state => { db with task_run_state := rows }
  | .task_run => { db with task_run := rows }
  | .flow_run_state => { db with flow_run_state := rows }
  | .flow_run => { db with flow_run := rows }
  | .event_resources => { db with event_resources := rows }
  | .events => { db with events := rows }
  | .artifact => { db with artifact := rows }

/-- Effect of `DELETE FROM t WHERE created < :cutoff` on one table: the rows
that remain, and the engine-reported rowcount (number of rows deleted). -/
def deleteOld (cutoff : Int) (rows : List Row) : List Row × Nat :=
  (rows.filter (fun r => !decide (r.created < cutoff)),
   (rows.filter (fun r => decide (r.created < cutoff))).length)

/-- The per-table statistics dict built by the delete loop, in insertion
order. -/
abbrev Stats := List (TableName × Nat)

/-- The `for table in tables:` loop of `PrefectCleanup.run`, threading the
database state and the `stats` dict. -/
def runLoop (cutoff : Int) : List TableName → DbState × Stats → DbState × Stats
  | [], acc => acc
  | t :: rest, (db, stats) =>
    let (kept, n) := deleteOld cutoff (getTable db t)
    runLoop cutoff rest (setTable db t kept, stats ++ [(t, n)])

/-- `PrefectCleanup.run(days)` on the success path: `cutoff_date` is
`now - days` (the clock `now` is an explicit argument), each of the eight
tables loses its rows older than the cutoff, and the per-table rowcounts
are returned. -/
def PrefectCleanup.run (now days : Int) (db : DbState) : DbState × Stats :=
  let cutoff := now - days
  runLoop cutoff tableOrder (db, [])

/-- An observable event issued to the database engine by `run`: a DELETE on
one table (with its rowcount) or the final commit. -/
inductive DbEvent where
  | del (t : TableName) (n : Nat)
  | commit
deriving DecidableEq, Repr

/-- The delete loop of `run` in the presence of failures.  `failing t = true`
means the DELETE on table `t` raises.  Returns the uncommitted state, the
stats dict built so far, the events issued, and the table whose delete
raised (if any); the loop stops at the first failure. -/
def execLoop (failing : TableName → Bool) (cutoff : Int) :
    List TableName → DbState → Stats → List DbEvent →
    DbState × Stats × List DbEvent × Option TableName
  | [], db, stats, evs => (db, stats, evs, none)
  | t :: rest, db, stats, evs =>
    if failing t then (db, stats, evs, some t)
    else
      let (kept, n) := deleteOld cutoff (getTable db t)
      execLoop failing cutoff rest (setTable db t kept) (stats ++ [(t, n)])
        (evs ++ [.del t n])

/-- `PrefectCleanup.run(days)` with the transaction semantics of the
`with engine.connect()` block made explicit.  If every delete succeeds, the
single `conn.commit()` is issued after the loop and the new state becomes
visible; if the delete on some table raises, the connection is closed
without a commit, so the transaction rolls back and the visible state is
the original one, while the error propagates (`Except.error` names the
failing table). -/
def PrefectCleanup.runWithFailure (failing : TableName → Bool) (now days : Int)
    (db : DbState) : DbState × List DbEvent × Except TableName Stats :=
  let cutoff := now - days
  match execLoop failing cutoff tableOrder db [] [] with
  | (dbf, stats, evs, none) => (dbf, evs ++ [.commit], .ok stats)
  | (_, _, evs, some t) => (db, evs, .error t)

/-- The delete events the loop issues on a given table list, starting from a
given state (used to describe the trace of `execLoop` in closed form). -/
def delEvents (cutoff : Int) : List TableName → DbState → List DbEvent
  | [], _ => []
  | t :: rest, db =>
    let (kept, n) := deleteOld cutoff (getTable db t)
    .del t n :: delEvents cutoff rest (setTable db t kept)

/-- Dict access in the returned stats mapping. -/
def lookupStat (t : TableName) : Stats → Option Nat
  | [] => none
  | (u, n) :: rest => if u = t then some n else lookupStat t rest

/-- Concrete database for witnesses: one `log` row created at time 40
(60 days old at `now = 100`) and one created at time 90 (10 days old);
every other table empty. -/
def dbScenario : DbState :=
  { log := [⟨40, 0⟩, ⟨90, 1⟩]
    task_run_state := []
    task_run := []
    flow_run_state := []
    flow_run := []
    event_resources := []
    events := []
    artifact := [] }

/-- Failure oracle for witnesses: only the DELETE on `task_run` raises. -/
def failTaskRun : TableName → Bool := fun t => decide (t = .task_run)

/-! Health reporter (monitoring.py). -/

/-- The value stored in one slot of the `table_counts` dict: either the
COUNT result or the error string recorded by the per-table `except`. -/
inductive CountVal where
  | int (n : Nat)
  | err (s : String)
deriving DecidableEq, Repr

/-- The `isinstance(v, int)` test of the source. -/
def CountVal.isInt : CountVal → Bool
  | .int _ => true
  | .err _ => false

/-- The `tables` dict of `health_check`: display name paired with the SQL
table name, in the source's insertion order. -/
def hTables : List (String × String) :=
  [("logs", "log"), ("flow_runs", "flow_run"), ("task_runs", "task_run"),
   ("events", "events")]

/-- `sum(v for v in counts.values() if isinstance(v, int))`. -/
def sumInts : List CountVal → Nat
  | [] => 0
  | .int n :: rest => n + sumInts rest
  | .err _ :: rest => sumInts rest

/-- The dict returned by `health_check`, one field per key. -/
structure HealthResult where
  timestamp : String
  table_counts : List (String × CountVal)
  total_records : Nat
  needs_cleanup : Bool
  is_large : Bool
  recommendation : String
  status : String
deriving DecidableEq, Repr

/-- `DatabaseMonitor._get_recommendation` (leading underscore dropped). -/
def DatabaseMonitor.get_recommendation (total_records : Nat) : String :=
  if total_records < 10000 then "Database is small and healthy"
  else if total_records < 100000 then "Database is growing but fine"
  else if total_records < 500000 then "Consider monthly cleanup (30 days retention)"
  else if total_records < 1000000 then "Recommend weekly cleanup (7 days retention)"
  else "URGENT: Database is very large, cleanup immediately"

/-- One iteration of the counting loop of `health_check`: the COUNT query on
`p.2` either yields a number or raises, in which case the slot records the
string `Error: ` followed by the exception message. -/
def countEntry (q : String → Except String Nat) (p : String × String) :
    String × CountVal :=
  (p.1, match q p.2 with
        | .ok n => CountVal.int n
        | .error e => CountVal.err ("Error: " ++ e))

/-- `DatabaseMonitor.health_check`.  `timestamp` stands for
`datetime.now().isoformat()`; `q` is the database's response to
`SELECT COUNT` on each table. -/
def DatabaseMonitor.health_check (timestamp : String)
    (q : String → Except String Nat) : HealthResult :=
  let counts := hTables.map (countEntry q)
  let total_records := sumInts (counts.map Prod.snd)
  let needs_cleanup := total_records > 100000
  let is_large := total_records > 500000
  { timestamp := timestamp
    table_counts := counts
    total_records := total_records
    needs_cleanup := needs_cleanup
    is_large := is_large
    recommendation := DatabaseMonitor.get_recommendation total_records
    status := if !needs_cleanup then "healthy" else "attention_needed" }

/-- Dict access in the `table_counts` mapping. -/
def lookupCount (name : String) : List (String × CountVal) → Option CountVal
  | [] => none
  | (k, v) :: rest => if k = name then some v else lookupCount name rest

/-- Error-free query oracle for witnesses: `log`, `flow_run`, `task_run` and
`events` hold `a`, `b`, `c` and `d` rows respectively. -/
def qCounts (a b c d : Nat) : String → Except String Nat := fun t =>
  if t = "log" then .ok a
  else if t = "flow_run" then .ok b
  else if t = "task_run" then .ok c
  else .ok d

/-- Query oracle for witnesses where only the `flow_run` COUNT raises. -/
def qOneError : String → Except String Nat := fun t =>
  if t = "flow_run" then .error "no such table: flow_run" else .ok 7

/-! Backup copier (backup_handler.py).  Python string primitives are
re-implemented on `String.data` (lists of characters) so that every
definition evaluates in the kernel. -/

/-- ASCII lowering of one character, as `str.lower` does on URL text. -/
def lowerChar (c : Char) : Char :=
  if 'A' ≤ c && c ≤ 'Z' then Char.ofNat (c.toNat + 32) else c

/-- Python `s.lower()` (ASCII; connection URLs contain no other letters). -/
def pyLower (s : String) : String := ⟨s.data.map lowerChar⟩

/-- If `pat` occurs at the head of `s`, return the remainder of `s`. -/
def dropPre (pat s : List Char) : Option (List Char) :=
  match pat, s with
  | [], rest => some rest
  | _ :: _, [] => none
  | p :: ps, c :: cs => if p = c then dropPre ps cs else none

/-- Python `pat in s` (substring test) on character lists. -/
def containsSub (pat : List Char) : List Char → Bool
  | [] => (dropPre pat []).isSome
  | c :: cs => (dropPre pat (c :: cs)).isSome || containsSub pat cs

/-- Python `s.replace(pat, rep)`: replace every non-overlapping occurrence,
left to right.  The recursion is fueled by the length of the remaining
string, which bounds the number of steps (every step consumes at least one
character when `pat` is nonempty; an empty `pat`, which the source never
passes, is treated as matching nothing). -/
def replaceAllFuel (pat rep : List Char) : Nat → List Char → List Char
  | 0, s => s
  | _ + 1, [] => []
  | fuel + 1, c :: cs =>
    match dropPre pat (c :: cs) with
    | some rest =>
      if pat.isEmpty then c :: replaceAllFuel pat rep fuel cs
      else rep ++ replaceAllFuel pat rep fuel rest
    | none => c :: replaceAllFuel pat rep fuel cs

/-- Python `s.replace(pat, rep)` on `String`. -/
def pyReplace (s pat rep : String) : String :=
  ⟨replaceAllFuel pat.data rep.data s.data.length s.data⟩

/-- `db_url.replace("sqlite:///", "").replace("sqlite://", "")`: the database
file path extracted from the connection URL by `_backup_sqlite`. -/
def stripSqliteScheme (url : String) : String :=
  pyReplace (pyReplace url "sqlite:///" "") "sqlite://" ""

/-- `BackupHandler._is_sqlite`: `"sqlite" in self.db_url.lower()`. -/
def BackupHandler.is_sqlite (db_url : String) : Bool :=
  containsSub "sqlite".data (pyLower db_url).data

/-- The filesystem: an association list from paths to file contents (byte
lists).  Later entries are shadowed by earlier ones. -/
abbrev FS := List (String × List Nat)

/-- Read the content of a file, `none` when the path does not exist. -/
def FS.read (fs : FS) (p : String) : Option (List Nat) :=
  match fs with
  | [] => none
  | (q, bytes) :: rest => if q = p then some bytes else FS.read rest p

/-- Create or overwrite a file (the effect of `shutil.copy2`'s target). -/
def FS.write (fs : FS) (p : String) (bytes : List Nat) : FS :=
  (p, bytes) :: fs

/-- `BackupHandler._backup_sqlite`: extract the database file path from the
URL; if the file does not exist raise `FileNotFoundError` before copying,
otherwise copy its bytes to `backup_path`.  The returned pair is the
filesystem after the call and the outcome. -/
def BackupHandler.backup_sqlite (fs : FS) (db_url : String) (backup_path : String) :
    FS × Except String Unit :=
  let db_file := stripSqliteScheme db_url
  match FS.read fs db_file with
  | none => (fs, .error ("Database file not found: " ++ db_file))
  | some bytes => (FS.write fs backup_path bytes, .ok ())

/-- `BackupHandler.create` with the name already chosen (the caller passes
either the given name or the timestamp-derived default).  `pg_dump` is the
behaviour of the external dump subprocess for the non-sqlite branch: the
dumped bytes on exit code 0, otherwise its stderr.  Exceptions propagate
and leave the filesystem unchanged. -/
def BackupHandler.create (pg_dump : String → Except String (List Nat))
    (fs : FS) (db_url backup_dir name : String) : FS × Except String String :=
  let backup_path := backup_dir ++ "/" ++ name ++ ".backup"
  if BackupHandler.is_sqlite db_url then
    match BackupHandler.backup_sqlite fs db_url backup_path with
    | (fs', .ok _) => (fs', .ok backup_path)
    | (fs', .error e) => (fs', .error e)
  else
    match pg_dump db_url with
    | .ok out => (FS.write fs backup_path out, .ok backup_path)
    | .error stderr => (fs, .error ("pg_dump failed: " ++ stderr))

/-- Filesystem for witnesses: the database file with three bytes. -/
def fsDemo : FS := [("prefect.db", [1, 2, 3])]

/-- Insertion step of the sort modelling Python's `sorted`. -/
def insertBy {α : Type} (le : α → α → Bool) (a : α) : List α → List α
  | [] => [a]
  | b :: bs => if le a b then a :: b :: bs else b :: insertBy le a bs

/-- Python `sorted(l, key=..., reverse=True)` modelled as an insertion sort
on the corresponding boolean order (the order among key-equal elements is
not relied upon). -/
def sortBy {α : Type} (le : α → α → Bool) : List α → List α
  | [] => []
  | a :: as => insertBy le a (sortBy le as)

/-- A backup file on disk as `cleanup_old_backups` sees it: its name and its
`st_ctime`. -/
structure BFile where
  stem : String
  ctime : Nat
deriving DecidableEq, Repr

/-- The sort order of `cleanup_old_backups`: by creation time, newest
first (`key=lambda x: x.stat().st_ctime, reverse=True`). -/
def ctimeDesc (a b : BFile) : Bool := decide (b.ctime ≤ a.ctime)

/-- Python's `l[k:]` slice, including the negative-index semantics: for
`k < 0` it is the suffix of the last `min(-k, len(l))` elements. -/
def pySliceFrom {α : Type} (k : Int) (l : List α) : List α :=
  if 0 ≤ k then l.drop k.toNat else l.drop (l.length - min (-k).toNat l.length)

/-- `BackupHandler.cleanup_old_backups(keep_count)`: sort the backup files
newest first, unlink every file in `backup_files[keep_count:]`, and return
how many were deleted.  The deleted slice is a suffix of the sorted
listing, so the files remaining on disk are the complementary prefix;
the function returns that prefix together with `deleted_count`. -/
def BackupHandler.cleanup_old_backups (keep_count : Int) (files : List BFile) :
    List BFile × Nat :=
  let backup_files := sortBy ctimeDesc files
  let to_delete := pySliceFrom keep_count backup_files
  (backup_files.take (backup_files.length - to_delete.length), to_delete.length)

/-- Backup files for the pruning witnesses. -/
def bfilesDemo : List BFile := [⟨"a", 1⟩, ⟨"b", 3⟩, ⟨"c", 2⟩]

/-- A backup file on disk as `list_backups` sees it: name, `st_size` in
bytes, and `st_ctime`. -/
structure RawFile where
  stem : String
  size : Nat
  ctime : Nat
deriving DecidableEq, Repr

/-- A value of one field of a backup record. -/
inductive EntryVal where
  | str (s : String)
  | num (q : ℚ)
  | nat (n : Nat)
deriving DecidableEq, Repr

/-- `round(x, 2)` modelled as exact rational rounding to two decimal places
(the source rounds a binary float; the claims do not depend on the last
ulp). -/
def roundTo2 (q : ℚ) : ℚ := (round (q * 100) : ℤ) / 100

/-- The record dict `list_backups` builds for one backup file.  The keys are
in the source's insertion order; `created` is `st_ctime` (the source
formats it as an ISO timestamp, whose lexicographic order agrees with the
numeric order of `st_ctime`). -/
def backupEntry (backup_dir : String) (f : RawFile) : List (String × EntryVal) :=
  [("name", .str f.stem),
   ("path", .str (backup_dir ++ "/" ++ f.stem ++ ".backup")),
   ("size_mb", .num (roundTo2 ((f.size : ℚ) / 1024 / 1024))),
   ("created", .nat f.ctime)]

/-- Dict access in a backup record. -/
def lookupEntry (key : String) : List (String × EntryVal) → Option EntryVal
  | [] => none
  | (k, v) :: rest => if k = key then some v else lookupEntry key rest

/-- The sort key `x["created"]` of `list_backups` (every record built by
`backupEntry` has the key, so the default is never taken). -/
def entryCreated (e : List (String × EntryVal)) : Nat :=
  match lookupEntry "created" e with
  | some (.nat c) => c
  | _ => 0

/-- The sort order of `list_backups`: by `created`, newest first. -/
def createdDesc (a b : List (String × EntryVal)) : Bool :=
  decide (entryCreated b ≤ entryCreated a)

/-- The dict returned by `list_backups`. -/
structure BackupsListing where
  backup_directory : String
  total_backups : Nat
  backups : List (List (String × EntryVal))
deriving DecidableEq, Repr

/-- `BackupHandler.list_backups`: one record per backup file in the backup
directory, sorted by creation time newest first, wrapped in a dict with
the directory and the total count. -/
def BackupHandler.list_backups (backup_dir : String) (files : List RawFile) :
    BackupsListing :=
  let entries := files.map (backupEntry backup_dir)
  let entries := sortBy createdDesc entries
  { backup_directory := backup_dir
    total_backups := entries.length
    backups := entries }

/-- One backup file for the `list_backups` counterexample. -/
def rawDemo : RawFile := ⟨"prefect_backup_20240101_000000", 1048576, 5⟩

/-- Two backup files for the `list_backups` witness. -/
def rawFiles2 : List RawFile := [⟨"old", 10, 1⟩, ⟨"new", 20, 9⟩]

/-! Helper lemmas about the retention executor. -/

/-- Closed form of a table after `run`: the rows of the original table whose
`created` is not below the cutoff. -/
theorem run_getTable (now days : Int) (db : DbState) (t : TableName) :
    getTable (PrefectCleanup.run now days db).1 t =
      (getTable db t).filter (fun r => !decide (r.created < now - days)) := by
  cases t <;> rfl

/-- Closed form of the stats dict returned by `run`: one entry per table, in
`tableOrder`, holding the number of rows below the cutoff. -/
theorem run_stats_eq (now days : Int) (db : DbState) :
    (PrefectCleanup.run now days db).2 =
      tableOrder.map (fun t =>
        (t, ((getTable db t).filter (fun r => decide (r.created < now - days))).length)) := by
  rfl

/-- Claim C1: after `run(d)` no remaining row of any of the eight tables has
`created < now - d`, every row with `created ≥ now - d` that was present
before the call is still present, and the returned mapping gives for each
table exactly the number of rows deleted from it. -/
theorem run_retention (now days : Int) (db : DbState) (t : TableName) :
    (∀ r ∈ getTable (PrefectCleanup.run now days db).1 t, ¬ r.created < now - days) ∧
    (∀ r ∈ getTable db t, now - days ≤ r.created →
        r ∈ getTable (PrefectCleanup.run now days db).1 t) ∧
    lookupStat t (PrefectCleanup.run now days db).2 =
      some ((getTable db t).filter (fun r => decide (r.created < now - days))).length := by
  refine ⟨?_, ?_, ?_⟩
  · intro r hr
    rw [run_getTable] at hr
    simp only [List.mem_filter, Bool.not_eq_true', decide_eq_false_iff_not] at hr
    exact hr.2
  · intro r hr hle
    rw [run_getTable]
    simp only [List.mem_filter, Bool.not_eq_true', decide_eq_false_iff_not]
    exact ⟨hr, not_lt.mpr hle⟩
  · rw [run_stats_eq]; cases t <;> rfl

/-- Witness for C1, on the spec's scenario: a 60-day-old and a 10-day-old
`log` row with a 30-day window at `now = 100` yield one deletion reported
for `log`, and the younger row survives. -/
theorem run_retention_witness :
    lookupStat .log (PrefectCleanup.run 100 30 dbScenario).2 = some 1 ∧
    (∀ r ∈ getTable dbScenario .log, (100:Int) - 30 ≤ r.created →
        r ∈ getTable (PrefectCleanup.run 100 30 dbScenario).1 .log) ∧
    (∀ r ∈ getTable (PrefectCleanup.run 100 30 dbScenario).1 .log,
        ¬ r.created < (100:Int) - 30) := by
  obtain ⟨h1, h2, h3⟩ := run_retention 100 30 dbScenario .log
  refine ⟨?_, h2, h1⟩
  rw [h3]; decide

/-- Claim C4: `run(d)` is idempotent; a second call on the state left by the
first deletes nothing (all counts are 0) and leaves the state unchanged. -/
theorem run_idempotent (now days : Int) (db : DbState) :
    PrefectCleanup.run now days (PrefectCleanup.run now days db).1 =
      ((PrefectCleanup.run now days db).1, tableOrder.map (fun t => (t, 0))) := by
  cases db
  apply Prod.ext <;>
    simp [PrefectCleanup.run, runLoop, tableOrder, deleteOld, getTable, setTable,
      List.filter_filter]

/-- The trace of a failure-free loop contains one delete event per table. -/
theorem delEvents_length (cutoff : Int) (ts : List TableName) :
    ∀ db, (delEvents cutoff ts db).length = ts.length := by
  induction ts with
  | nil => intro db; rfl
  | cons t rest ih => intro db; simp [delEvents, ih]

/-- The loop itself never issues a commit event. -/
theorem delEvents_no_commit (cutoff : Int) (ts : List TableName) :
    ∀ db, DbEvent.commit ∉ delEvents cutoff ts db := by
  induction ts with
  | nil => intro db; simp [delEvents]
  | cons t rest ih => intro db; simp [delEvents, ih]

/-- When no table fails, `execLoop` computes what `runLoop` computes and its
trace is the full list of delete events. -/
theorem execLoop_no_fail (failing : TableName → Bool) (cutoff : Int)
    (ts : List TableName) :
    ∀ db stats evs, (∀ t ∈ ts, failing t = false) →
      execLoop failing cutoff ts db stats evs =
        ((runLoop cutoff ts (db, stats)).1, (runLoop cutoff ts (db, stats)).2,
         evs ++ delEvents cutoff ts db, none) := by
  induction ts with
  | nil => intro db stats evs _; simp [execLoop, runLoop, delEvents]
  | cons t rest ih =>
    intro db stats evs h
    have ht : failing t = false := h t (List.mem_cons_self t rest)
    have hrest : ∀ u ∈ rest, failing u = false := fun u hu => h u (List.mem_cons_of_mem t hu)
    simp only [execLoop, ht, Bool.false_eq_true, if_false, runLoop, delEvents]
    rw [ih _ _ _ hrest]
    simp

/-- Structural facts about `execLoop`: a reported failure really is a failing
table, the loop adds no commit event, and a clean exit means no table in
the list fails. -/
theorem execLoop_props (failing : TableName → Bool) (cutoff : Int)
    (ts : List TableName) :
    ∀ db stats evs,
      (∀ t, (execLoop failing cutoff ts db stats evs).2.2.2 = some t → failing t = true) ∧
      (DbEvent.commit ∉ evs →
        DbEvent.commit ∉ (execLoop failing cutoff ts db stats evs).2.2.1) ∧
      ((execLoop failing cutoff ts db stats evs).2.2.2 = none →
        ∀ t ∈ ts, failing t = false) := by
  induction ts with
  | nil =>
    intro db stats evs
    refine ⟨?_, ?_, ?_⟩
    · intro t h; simp [execLoop] at h
    · intro h; simpa [execLoop] using h
    · intro _ t h; simp at h
  | cons t rest ih =>
    intro db stats evs
    by_cases hf : failing t = true
    · refine ⟨?_, ?_, ?_⟩
      · intro u hu; simp [execLoop, hf] at hu; exact hu ▸ hf
      · intro h; simpa [execLoop, hf] using h
      · intro h; simp [execLoop, hf] at h
    · have hf' : failing t = false := by revert hf; cases failing t <;> simp
      refine ⟨?_, ?_, ?_⟩
      · intro u hu
        simp only [execLoop, hf', Bool.false_eq_true, if_false] at hu
        exact (ih _ _ _).1 u hu
      · intro h
        simp only [execLoop, hf', Bool.false_eq_true, if_false]
        refine (ih _ _ _).2.1 ?_
        simp [h]
      · intro h u hu
        simp only [execLoop, hf', Bool.false_eq_true, if_false] at h
        rcases List.mem_cons.mp hu with rfl | hu'
        · exact hf'
        · exact (ih _ _ _).2.2 h u hu'

/-- Claim C2: `run(d)` is all-or-nothing.  On success the trace ends in a
single commit after the eight deletes and the visible state and stats are
those of the pure `run`; if any delete raises, the error names the failing
table and propagates, no commit is issued, and the visible database state
is unchanged. -/
theorem run_all_or_nothing (failing : TableName → Bool) (now days : Int) (db : DbState) :
    (∀ s, (PrefectCleanup.runWithFailure failing now days db).2.2 = .ok s →
        (PrefectCleanup.runWithFailure failing now days db).1 =
          (PrefectCleanup.run now days db).1 ∧
        s = (PrefectCleanup.run now days db).2 ∧
        ∃ ds, (PrefectCleanup.runWithFailure failing now days db).2.1 = ds ++ [.commit] ∧
          DbEvent.commit ∉ ds ∧ ds.length = tableOrder.length) ∧
    (∀ t, (PrefectCleanup.runWithFailure failing now days db).2.2 = .error t →
        (PrefectCleanup.runWithFailure failing now days db).1 = db ∧ failing t = true ∧
        DbEvent.commit ∉ (PrefectCleanup.runWithFailure failing now days db).2.1) := by
  rcases hE : execLoop failing (now - days) tableOrder db [] [] with ⟨dbf, stats, evs, o⟩
  cases o with
  | none =>
    have hnf : ∀ t ∈ tableOrder, failing t = false := by
      have h := (execLoop_props failing (now - days) tableOrder db [] []).2.2
      rw [hE] at h; exact h rfl
    have hcf := execLoop_no_fail failing (now - days) tableOrder db [] [] hnf
    rw [hE] at hcf
    simp only [Prod.mk.injEq] at hcf
    obtain ⟨h1, h2, h3, -⟩ := hcf
    simp only [PrefectCleanup.runWithFailure, hE]
    constructor
    · intro s hs
      simp only [Except.ok.injEq] at hs
      subst hs
      refine ⟨h1, h2, delEvents (now - days) tableOrder db, ?_, ?_, ?_⟩
      · rw [h3]; simp
      · exact delEvents_no_commit _ _ _
      · exact delEvents_length _ _ _
    · intro t ht
      simp at ht
  | some t₀ =>
    have hfail : failing t₀ = true := by
      have h := (execLoop_props failing (now - days) tableOrder db [] []).1
      rw [hE] at h; exact h t₀ rfl
    have hnc : DbEvent.commit ∉ evs := by
      have h := (execLoop_props failing (now - days) tableOrder db [] []).2.1
      rw [hE] at h; exact h (by simp)
    simp only [PrefectCleanup.runWithFailure, hE]
    constructor
    · intro s hs; simp at hs
    · intro t ht
      simp only [Except.error.injEq] at ht
      subst ht
      exact ⟨trivial, hfail, hnc⟩

/-- Witness for C2: with a failing `task_run` delete the state is untouched
and the error surfaces, while with no failure the committed state agrees
with the pure `run`. -/
theorem run_all_or_nothing_witness :
    (PrefectCleanup.runWithFailure failTaskRun 100 30 dbScenario).1 = dbScenario ∧
    failTaskRun .task_run = true ∧
    DbEvent.commit ∉ (PrefectCleanup.runWithFailure failTaskRun 100 30 dbScenario).2.1 ∧
    (PrefectCleanup.runWithFailure (fun _ => false) 100 30 dbScenario).1 =
      (PrefectCleanup.run 100 30 dbScenario).1 := by
  have h1 := (run_all_or_nothing failTaskRun 100 30 dbScenario).2 .task_run (by rfl)
  have h2 := (run_all_or_nothing (fun _ => false) 100 30 dbScenario).1
      (PrefectCleanup.run 100 30 dbScenario).2 (by rfl)
  exact ⟨h1.1, h1.2.1, h1.2.2, h2.1⟩

/-! Health reporter theorems. -/

/-- Counterexample to claim C3 as stated: an error-free check whose
`total_records` is exactly 100,000 has `needs_cleanup = false`, because the
source tests `total_records > 100000` strictly. -/
theorem health_100000_counterexample :
    ((DatabaseMonitor.health_check "t" (qCounts 100000 0 0 0)).table_counts.map
        Prod.snd).all CountVal.isInt = true ∧
    (DatabaseMonitor.health_check "t" (qCounts 100000 0 0 0)).total_records = 100000 ∧
    (DatabaseMonitor.health_check "t" (qCounts 100000 0 0 0)).needs_cleanup = false :=
  ⟨rfl, rfl, rfl⟩

/-- Claim C3, amended: at `total_records = 99,999` the status is `healthy`
and the recommendation is the growing-but-fine one; at exactly 100,000
`needs_cleanup` is still `false` (and the status still `healthy`), the flag
turning `true` only above 100,000, e.g. at 100,001; at 1,000,000 the
recommendation text contains `URGENT`. -/
theorem health_thresholds (ts : String) (q : String → Except String Nat) :
    ((DatabaseMonitor.health_check ts q).total_records = 99999 →
        (DatabaseMonitor.health_check ts q).status = "healthy" ∧
        (DatabaseMonitor.health_check ts q).recommendation =
          "Database is growing but fine") ∧
    ((DatabaseMonitor.health_check ts q).total_records = 100000 →
        (DatabaseMonitor.health_check ts q).needs_cleanup = false ∧
        (DatabaseMonitor.health_check ts q).status = "healthy") ∧
    ((DatabaseMonitor.health_check ts q).total_records = 100001 →
        (DatabaseMonitor.health_check ts q).needs_cleanup = true) ∧
    ((DatabaseMonitor.health_check ts q).total_records = 1000000 →
        ∃ a b, (DatabaseMonitor.health_check ts q).recommendation =
          a ++ "URGENT" ++ b) := by
  have hn : (DatabaseMonitor.health_check ts q).needs_cleanup =
      decide ((DatabaseMonitor.health_check ts q).total_records > 100000) := rfl
  have hs : (DatabaseMonitor.health_check ts q).status =
      (if !(DatabaseMonitor.health_check ts q).needs_cleanup then "healthy"
       else "attention_needed") := rfl
  have hr : (DatabaseMonitor.health_check ts q).recommendation =
      DatabaseMonitor.get_recommendation
        (DatabaseMonitor.health_check ts q).total_records := rfl
  refine ⟨?_, ?_, ?_, ?_⟩ <;> intro h
  · rw [hs, hn, h, hr, h]
    constructor
    · norm_num
    · rfl
  · rw [hn, hs, hn, h]
    constructor
    · norm_num
    · norm_num
  · rw [hn, h]; norm_num
  · rw [hr, h]
    exact ⟨"", ": Database is very large, cleanup immediately", rfl⟩

/-- Witness for C3 (amended), instantiating each threshold at a concrete
error-free oracle. -/
theorem health_thresholds_witness :
    (DatabaseMonitor.health_check "t" (qCounts 99999 0 0 0)).status = "healthy" ∧
    (DatabaseMonitor.health_check "t" (qCounts 100000 0 0 0)).needs_cleanup = false ∧
    (DatabaseMonitor.health_check "t" (qCounts 100001 0 0 0)).needs_cleanup = true ∧
    ∃ a b, (DatabaseMonitor.health_check "t" (qCounts 1000000 0 0 0)).recommendation =
      a ++ "URGENT" ++ b :=
  ⟨((health_thresholds "t" (qCounts 99999 0 0 0)).1 rfl).1,
   ((health_thresholds "t" (qCounts 100000 0 0 0)).2.1 rfl).1,
   (health_thresholds "t" (qCounts 100001 0 0 0)).2.2.1 rfl,
   (health_thresholds "t" (qCounts 1000000 0 0 0)).2.2.2 rfl⟩

/-- Claim C5: when none of the four COUNT queries fails, `total_records` is
the sum of the four reported table counts, and `table_counts` reports each
of them. -/
theorem health_total_is_sum (ts : String) (q : String → Except String Nat)
    (a b c d : Nat) (h1 : q "log" = .ok a) (h2 : q "flow_run" = .ok b)
    (h3 : q "task_run" = .ok c) (h4 : q "events" = .ok d) :
    (DatabaseMonitor.health_check ts q).total_records = a + b + c + d ∧
    (DatabaseMonitor.health_check ts q).table_counts =
      [("logs", .int a), ("flow_runs", .int b), ("task_runs", .int c),
       ("events", .int d)] := by
  have hc : (DatabaseMonitor.health_check ts q).table_counts =
      hTables.map (countEntry q) := rfl
  have ht : (DatabaseMonitor.health_check ts q).total_records =
      sumInts (((DatabaseMonitor.health_check ts q).table_counts).map Prod.snd) := rfl
  rw [ht, hc]
  simp only [hTables, List.map_cons, List.map_nil, countEntry, h1, h2, h3, h4]
  refine ⟨?_, trivial⟩
  simp [sumInts]
  omega

/-- Witness for C5 at concrete counts 5, 6, 7 and 8. -/
theorem health_total_is_sum_witness :
    (DatabaseMonitor.health_check "t" (qCounts 5 6 7 8)).total_records = 5 + 6 + 7 + 8 :=
  (health_total_is_sum "t" (qCounts 5 6 7 8) 5 6 7 8 rfl rfl rfl rfl).1

/-- Claim C6: a COUNT failure on an individual table is caught per table:
the failing table's slot holds the error string `Error: ` plus the message,
every table whose query succeeds still has its count in its slot, and the
check completes with `total_records` the sum of the integer slots only. -/
theorem health_per_table_failure (ts : String) (q : String → Except String Nat) :
    (∀ name table, (name, table) ∈ hTables → ∀ e, q table = .error e →
        lookupCount name (DatabaseMonitor.health_check ts q).table_counts =
          some (.err ("Error: " ++ e))) ∧
    (∀ name table, (name, table) ∈ hTables → ∀ n, q table = .ok n →
        lookupCount name (DatabaseMonitor.health_check ts q).table_counts =
          some (.int n)) ∧
    (DatabaseMonitor.health_check ts q).total_records =
      sumInts ((DatabaseMonitor.health_check ts q).table_counts.map Prod.snd) := by
  have hc : (DatabaseMonitor.health_check ts q).table_counts =
      hTables.map (countEntry q) := rfl
  refine ⟨?_, ?_, rfl⟩
  · intro name table hmem e hq
    rw [hc]
    simp only [hTables, List.mem_cons, List.not_mem_nil, or_false,
      Prod.mk.injEq] at hmem
    rcases hmem with ⟨rfl, rfl⟩ | ⟨rfl, rfl⟩ | ⟨rfl, rfl⟩ | ⟨rfl, rfl⟩ <;>
      simp [hTables, countEntry, lookupCount, hq]
  · intro name table hmem n hq
    rw [hc]
    simp only [hTables, List.mem_cons, List.not_mem_nil, or_false,
      Prod.mk.injEq] at hmem
    rcases hmem with ⟨rfl, rfl⟩ | ⟨rfl, rfl⟩ | ⟨rfl, rfl⟩ | ⟨rfl, rfl⟩ <;>
      simp [hTables, countEntry, lookupCount, hq]

/-- Witness for C6: with only the `flow_run` COUNT failing, its slot records
the error string, `logs` is still counted, and the check completes with the
three healthy counts summed. -/
theorem health_per_table_failure_witness :
    lookupCount "flow_runs"
        (DatabaseMonitor.health_check "t" qOneError).table_counts =
      some (.err ("Error: " ++ "no such table: flow_run")) ∧
    lookupCount "logs" (DatabaseMonitor.health_check "t" qOneError).table_counts =
      some (.int 7) ∧
    (DatabaseMonitor.health_check "t" qOneError).total_records = 21 := by
  refine ⟨(health_per_table_failure "t" qOneError).1 "flow_runs" "flow_run"
      (by decide) "no such table: flow_run" rfl,
    (health_per_table_failure "t" qOneError).2.1 "logs" "log" (by decide) 7 rfl, rfl⟩

/-! Backup copier theorems. -/

/-- Claim C8: for a sqlite database, `create` writes a file whose path ends
in `.backup` and whose content is byte-identical to the source database
file; if the source file does not exist, the call fails with the
`Database file not found` error and the filesystem is untouched. -/
theorem create_backup_sqlite (pg_dump : String → Except String (List Nat))
    (fs : FS) (db_url backup_dir name : String)
    (hsql : BackupHandler.is_sqlite db_url = true) :
    (∀ bytes, FS.read fs (stripSqliteScheme db_url) = some bytes →
        (BackupHandler.create pg_dump fs db_url backup_dir name).2 =
          .ok (backup_dir ++ "/" ++ name ++ ".backup") ∧
        FS.read (BackupHandler.create pg_dump fs db_url backup_dir name).1
            (backup_dir ++ "/" ++ name ++ ".backup") = some bytes) ∧
    (FS.read fs (stripSqliteScheme db_url) = none →
        (BackupHandler.create pg_dump fs db_url backup_dir name).1 = fs ∧
        (BackupHandler.create pg_dump fs db_url backup_dir name).2 =
          .error ("Database file not found: " ++ stripSqliteScheme db_url)) := by
  constructor
  · intro bytes hb
    simp only [BackupHandler.create, hsql, if_true, BackupHandler.backup_sqlite, hb]
    exact ⟨trivial, by simp [FS.read, FS.write]⟩
  · intro hb
    simp only [BackupHandler.create, hsql, if_true, BackupHandler.backup_sqlite, hb]
    exact ⟨trivial, trivial⟩

/-- Witness for C8: backing up `sqlite:///prefect.db` copies the three bytes
of `prefect.db` into `backups/b1.backup`; on an empty filesystem the call
reports the not-found error and creates nothing. -/
theorem create_backup_sqlite_witness :
    (BackupHandler.create (fun _ => .error "") fsDemo "sqlite:///prefect.db"
        "backups" "b1").2 = .ok ("backups" ++ "/" ++ "b1" ++ ".backup") ∧
    FS.read (BackupHandler.create (fun _ => .error "") fsDemo "sqlite:///prefect.db"
        "backups" "b1").1 ("backups" ++ "/" ++ "b1" ++ ".backup") = some [1, 2, 3] ∧
    (BackupHandler.create (fun _ => .error "") ([] : FS) "sqlite:///prefect.db"
        "backups" "b2").1 = ([] : FS) ∧
    (BackupHandler.create (fun _ => .error "") ([] : FS) "sqlite:///prefect.db"
        "backups" "b2").2 =
      .error ("Database file not found: " ++ stripSqliteScheme "sqlite:///prefect.db") := by
  have h1 := (create_backup_sqlite (fun _ => .error "") fsDemo "sqlite:///prefect.db"
      "backups" "b1" (by decide)).1 [1, 2, 3] (by decide)
  have h2 := (create_backup_sqlite (fun _ => .error "") ([] : FS) "sqlite:///prefect.db"
      "backups" "b2" (by decide)).2 rfl
  exact ⟨h1.1, h1.2, h2.1, h2.2⟩

/-! Sorting lemmas shared by the pruning and listing theorems. -/

/-- Inserting an element permutes consing it. -/
theorem insertBy_perm {α : Type} (le : α → α → Bool) (a : α) :
    ∀ l : List α, (insertBy le a l).Perm (a :: l) := by
  intro l
  induction l with
  | nil => simp [insertBy]
  | cons b bs ih =>
    by_cases h : le a b = true
    · simp [insertBy, h]
    · simp only [insertBy, h, Bool.false_eq_true, if_false]
      exact (ih.cons b).trans (List.Perm.swap a b bs)

/-- Sorting permutes the list. -/
theorem sortBy_perm {α : Type} (le : α → α → Bool) :
    ∀ l : List α, (sortBy le l).Perm l := by
  intro l
  induction l with
  | nil => simp [sortBy]
  | cons a as ih =>
    exact (insertBy_perm le a (sortBy le as)).trans (ih.cons a)

/-- Sorting preserves the length. -/
theorem sortBy_length {α : Type} (le : α → α → Bool) (l : List α) :
    (sortBy le l).length = l.length :=
  (sortBy_perm le l).length_eq

/-- For a total transitive boolean order, insertion preserves sortedness. -/
theorem insertBy_pairwise {α : Type} (le : α → α → Bool)
    (htot : ∀ a b, le a b = false → le b a = true)
    (htrans : ∀ a b c, le a b = true → le b c = true → le a c = true) (a : α) :
    ∀ l : List α, l.Pairwise (fun x y => le x y = true) →
      (insertBy le a l).Pairwise (fun x y => le x y = true) := by
  intro l
  induction l with
  | nil => intro _; simp [insertBy]
  | cons b bs ih =>
    intro hp
    rw [List.pairwise_cons] at hp
    obtain ⟨hb, hbs⟩ := hp
    by_cases hab : le a b = true
    · simp only [insertBy, hab, if_true]
      rw [List.pairwise_cons]
      refine ⟨?_, ?_⟩
      · intro x hx
        rcases List.mem_cons.mp hx with rfl | hx'
        · exact hab
        · exact htrans a b x hab (hb x hx')
      · rw [List.pairwise_cons]; exact ⟨hb, hbs⟩
    · have hba : le b a = true := htot a b (by revert hab; cases le a b <;> simp)
      simp only [insertBy, hab, Bool.false_eq_true, if_false]
      rw [List.pairwise_cons]
      refine ⟨?_, ih hbs⟩
      intro x hx
      rcases List.mem_cons.mp ((insertBy_perm le a bs).mem_iff.mp hx) with rfl | hx'
      · exact hba
      · exact hb x hx'

/-- For a total transitive boolean order, `sortBy` sorts. -/
theorem sortBy_pairwise {α : Type} (le : α → α → Bool)
    (htot : ∀ a b, le a b = false → le b a = true)
    (htrans : ∀ a b c, le a b = true → le b c = true → le a c = true) :
    ∀ l : List α, (sortBy le l).Pairwise (fun x y => le x y = true) := by
  intro l
  induction l with
  | nil => simp [sortBy]
  | cons a as ih => exact insertBy_pairwise le htot htrans a (sortBy le as) ih

/-- The newest-first order on backup files is total. -/
theorem ctimeDesc_total : ∀ a b : BFile, ctimeDesc a b = false → ctimeDesc b a = true := by
  intro a b h; simp [ctimeDesc] at h ⊢; omega

/-- The newest-first order on backup files is transitive. -/
theorem ctimeDesc_trans : ∀ a b c : BFile, ctimeDesc a b = true → ctimeDesc b c = true →
    ctimeDesc a c = true := by
  intro a b c h1 h2; simp [ctimeDesc] at h1 h2 ⊢; omega

/-- Claim C7: for `keep_count = k ≥ 0`, pruning keeps exactly
`min k existing_count` backup files, namely the `k` most recently created
ones (the prefix of the newest-first listing; every kept file is at least
as recent as every deleted one), and returns the number of deleted files,
`existing_count - k` truncated at zero. -/
theorem cleanup_keeps_most_recent (k : Int) (hk : 0 ≤ k) (files : List BFile) :
    (BackupHandler.cleanup_old_backups k files).1 =
        (sortBy ctimeDesc files).take k.toNat ∧
    (BackupHandler.cleanup_old_backups k files).1.length =
        min k.toNat files.length ∧
    (BackupHandler.cleanup_old_backups k files).2 = files.length - k.toNat ∧
    ∀ f ∈ (BackupHandler.cleanup_old_backups k files).1,
      ∀ g ∈ pySliceFrom k (sortBy ctimeDesc files), g.ctime ≤ f.ctime := by
  have hn : (sortBy ctimeDesc files).length = files.length := sortBy_length _ _
  have hslice : pySliceFrom k (sortBy ctimeDesc files) =
      (sortBy ctimeDesc files).drop k.toNat := by
    simp [pySliceFrom, hk]
  have hco : BackupHandler.cleanup_old_backups k files =
      ((sortBy ctimeDesc files).take ((sortBy ctimeDesc files).length -
          (pySliceFrom k (sortBy ctimeDesc files)).length),
       (pySliceFrom k (sortBy ctimeDesc files)).length) := rfl
  refine ⟨?_, ?_, ?_, ?_⟩
  · simp only [hco, hslice, List.length_drop]
    rw [List.take_eq_take]
    omega
  · simp only [hco, hslice, List.length_drop, List.length_take]
    omega
  · simp only [hco, hslice, List.length_drop]
    omega
  · intro f hf g hg
    simp only [hco, hslice, List.length_drop] at hf hg
    by_cases hkn : k.toNat ≤ (sortBy ctimeDesc files).length
    · have hidx : (sortBy ctimeDesc files).length -
          ((sortBy ctimeDesc files).length - k.toNat) = k.toNat := by omega
      rw [hidx] at hf
      have hpair := sortBy_pairwise ctimeDesc ctimeDesc_total ctimeDesc_trans files
      rw [← List.take_append_drop k.toNat (sortBy ctimeDesc files),
        List.pairwise_append] at hpair
      exact of_decide_eq_true (hpair.2.2 f hf g hg)
    · rw [List.drop_eq_nil_of_le (by omega)] at hg
      exact absurd hg (List.not_mem_nil g)

/-- Witness for C7: keeping 2 of 3 files leaves the two newest and reports
one deletion. -/
theorem cleanup_keeps_most_recent_witness :
    (BackupHandler.cleanup_old_backups 2 bfilesDemo).1 =
        (sortBy ctimeDesc bfilesDemo).take 2 ∧
    (BackupHandler.cleanup_old_backups 2 bfilesDemo).1.length = 2 ∧
    (BackupHandler.cleanup_old_backups 2 bfilesDemo).2 = 1 := by
  have h := cleanup_keeps_most_recent 2 (by decide) bfilesDemo
  exact ⟨h.1, h.2.1, h.2.2.1⟩

/-- Claim C10: for a negative `keep_count = k < 0`, the Python slice
`backup_files[k:]` selects the last `min (-k) n` entries of the
newest-first listing, so the call deletes exactly that many files - the
oldest ones (every kept file is at least as recent as every deleted
one) - and keeps the remaining `n - min (-k) n` newest files, rather than
deleting everything. -/
theorem cleanup_negative_keep (k : Int) (hk : k < 0) (files : List BFile) :
    (BackupHandler.cleanup_old_backups k files).2 =
        min (-k).toNat files.length ∧
    (BackupHandler.cleanup_old_backups k files).1.length =
        files.length - min (-k).toNat files.length ∧
    ∀ f ∈ (BackupHandler.cleanup_old_backups k files).1,
      ∀ g ∈ pySliceFrom k (sortBy ctimeDesc files), g.ctime ≤ f.ctime := by
  have hn : (sortBy ctimeDesc files).length = files.length := sortBy_length _ _
  have hslice : pySliceFrom k (sortBy ctimeDesc files) =
      (sortBy ctimeDesc files).drop ((sortBy ctimeDesc files).length -
        min (-k).toNat (sortBy ctimeDesc files).length) := by
    rw [pySliceFrom, if_neg (not_le.mpr hk)]
  have hco : BackupHandler.cleanup_old_backups k files =
      ((sortBy ctimeDesc files).take ((sortBy ctimeDesc files).length -
          (pySliceFrom k (sortBy ctimeDesc files)).length),
       (pySliceFrom k (sortBy ctimeDesc files)).length) := rfl
  refine ⟨?_, ?_, ?_⟩
  · simp only [hco, hslice, List.length_drop]
    omega
  · simp only [hco, hslice, List.length_drop, List.length_take]
    omega
  · intro f hf g hg
    simp only [hco, hslice, List.length_drop] at hf hg
    have hidx : (sortBy ctimeDesc files).length -
        ((sortBy ctimeDesc files).length - ((sortBy ctimeDesc files).length -
          min (-k).toNat (sortBy ctimeDesc files).length)) =
        (sortBy ctimeDesc files).length -
          min (-k).toNat (sortBy ctimeDesc files).length := by omega
    rw [hidx] at hf
    have hpair := sortBy_pairwise ctimeDesc ctimeDesc_total ctimeDesc_trans files
    rw [← List.take_append_drop ((sortBy ctimeDesc files).length -
        min (-k).toNat (sortBy ctimeDesc files).length) (sortBy ctimeDesc files),
      List.pairwise_append] at hpair
    exact of_decide_eq_true (hpair.2.2 f hf g hg)

/-- Witness for C10: `keep_count = -1` on 3 files deletes only the single
oldest file and keeps the two newest. -/
theorem cleanup_negative_keep_witness :
    (BackupHandler.cleanup_old_backups (-1) bfilesDemo).2 = 1 ∧
    (BackupHandler.cleanup_old_backups (-1) bfilesDemo).1.length = 2 ∧
    (BackupHandler.cleanup_old_backups (-1) bfilesDemo).1 = [⟨"b", 3⟩, ⟨"c", 2⟩] := by
  have h := cleanup_negative_keep (-1) (by decide) bfilesDemo
  exact ⟨h.1, h.2.1, by decide⟩

/-- The newest-first order on backup records is total. -/
theorem createdDesc_total : ∀ a b, createdDesc a b = false → createdDesc b a = true := by
  intro a b h; simp [createdDesc] at h ⊢; omega

/-- The newest-first order on backup records is transitive. -/
theorem createdDesc_trans : ∀ a b c, createdDesc a b = true → createdDesc b c = true →
    createdDesc a c = true := by
  intro a b c h1 h2; simp [createdDesc] at h1 h2 ⊢; omega

/-- Counterexample to claim C9 as stated: the record `list_backups` builds
has no `size` field - the size is stored under the key `size_mb` - and the
record list is wrapped in a dict rather than returned directly. -/
theorem list_backups_size_field_counterexample :
    (BackupHandler.list_backups "backups" [rawDemo]).backups =
      [backupEntry "backups" rawDemo] ∧
    lookupEntry "size" (backupEntry "backups" rawDemo) = none ∧
    lookupEntry "size_mb" (backupEntry "backups" rawDemo) =
      some (.num (roundTo2 ((1048576 : ℚ) / 1024 / 1024))) ∧
    (backupEntry "backups" rawDemo).map Prod.fst =
      ["name", "path", "size_mb", "created"] :=
  ⟨rfl, rfl, rfl, rfl⟩

/-- Claim C9, amended: `list_backups` returns a dict holding, under
`backups`, one record per backup file - carrying exactly the fields `name`,
`path`, `size_mb` (not `size`) and `created` - as a list ordered
newest-first by creation time, together with `total_backups`, the number
of files. -/
theorem list_backups_spec (backup_dir : String) (files : List RawFile) :
    (BackupHandler.list_backups backup_dir files).total_backups = files.length ∧
    (BackupHandler.list_backups backup_dir files).backups.Perm
      (files.map (backupEntry backup_dir)) ∧
    (∀ e ∈ (BackupHandler.list_backups backup_dir files).backups,
        e.map Prod.fst = ["name", "path", "size_mb", "created"]) ∧
    (BackupHandler.list_backups backup_dir files).backups.Pairwise
      (fun a b => entryCreated b ≤ entryCreated a) := by
  have hb : (BackupHandler.list_backups backup_dir files).backups =
      sortBy createdDesc (files.map (backupEntry backup_dir)) := rfl
  refine ⟨?_, ?_, ?_, ?_⟩
  · show (sortBy createdDesc (files.map (backupEntry backup_dir))).length = _
    rw [sortBy_length, List.length_map]
  · rw [hb]; exact sortBy_perm _ _
  · intro e he
    rw [hb] at he
    have he' := (sortBy_perm createdDesc _).mem_iff.mp he
    obtain ⟨f, -, rfl⟩ := List.mem_map.mp he'
    rfl
  · rw [hb]
    have hp := sortBy_pairwise createdDesc createdDesc_total createdDesc_trans
      (files.map (backupEntry backup_dir))
    exact hp.imp (fun h => of_decide_eq_true h)

/-- Witness for C9 (amended): two backup files are listed newest-first with
the correct total. -/
theorem list_backups_spec_witness :
    (BackupHandler.list_backups "backups" rawFiles2).total_backups = 2 ∧
    ((BackupHandler.list_backups "backups" rawFiles2).backups.map entryCreated) =
      [9, 1] := by
  have h := list_backups_spec "backups" rawFiles2
  exact ⟨h.1, by decide⟩
